import Mathlib

/-!
Verification of the data selection and aggregation logic of the football
dashboard (`dashboard_app.py`).

The program is a single Python module built on pandas and streamlit.  We give
it a shallow embedding:

* A pandas `DataFrame` becomes a `Table`: a list of column names together with
  a list of rows, each row a list of cells aligned positionally with the
  column list (`Table.WF`).  Cells are either missing (`Cell.na`, modelling
  NaN), strings, or numbers; numeric values are modelled by `ℚ` (the program
  only adds, averages, rounds and compares them, and none of the claims under
  consideration depend on binary floating-point artefacts).
* The filesystem becomes explicit function arguments: the base analysis
  directory is a `BaseDir` (names of immediate subdirectories and of files
  directly inside), and the per-league file store is a function
  `LeagueFile → Option String` giving the raw text of each existing file.
  CSV parsing (`pd.read_csv`) is a library black box and is abstracted as a
  function argument `parse : String → Table`.
* Python string comparison (used by `sorted(...)`) is code-point
  lexicographic; `strLe` implements exactly that order on Lean strings.
* `st.cache_data` stores a serialized copy of the produced value and hands a
  fresh deserialized copy to every caller; the cache is modelled explicitly
  as an association list from file to stored table (`Cache`), with value
  (copy) semantics on lookup.
-/

namespace Dashboard

/-- A cell of a data table: missing value (NaN), a string, or a number. -/
inductive Cell where
  | na : Cell
  | str : String → Cell
  | num : ℚ → Cell
deriving DecidableEq, Repr

/-- A pandas `DataFrame`: named columns and positional rows. -/
structure Table where
  cols : List String
  rows : List (List Cell)
deriving DecidableEq, Repr

/-- Well-formedness: every row has exactly one cell per column. -/
def Table.WF (t : Table) : Prop := ∀ r ∈ t.rows, r.length = t.cols.length

/-- `df.empty`: true when the frame has no rows or no columns. -/
def Table.isEmpty (t : Table) : Bool := t.rows.isEmpty || t.cols.isEmpty

/-- Numeric content of a cell. -/
def numOf : Cell → Option ℚ
  | .num q => some q
  | _ => none

/-- Numeric values of a series, NaN and non-numeric entries skipped
(pandas reductions skip NaN). -/
def numsOf (l : List Cell) : List ℚ := l.filterMap numOf

/-- `df[c]`: the series of column `c` (callers only use it for present
columns; on an absent column every entry reads as `na`). -/
def getColumn (t : Table) (c : String) : List Cell :=
  t.rows.map (fun r => r.getD (t.cols.indexOf c) Cell.na)

/-- Code-point lexicographic comparison of character lists, the order Python
uses to compare strings (and hence `Path`s with a common parent). -/
def charListLe : List Char → List Char → Bool
  | [], _ => true
  | _ :: _, [] => false
  | a :: as, b :: bs => if a < b then true else if b < a then false else charListLe as bs

/-- Python's `<=` on strings. -/
def strLe (a b : String) : Bool := charListLe a.data b.data

theorem charListLe_trans : ∀ as bs cs, charListLe as bs = true → charListLe bs cs = true →
    charListLe as cs = true := by
  intro as
  induction as with
  | nil => intro bs cs _ _; rfl
  | cons a as ih =>
    intro bs cs hab hbc
    cases bs with
    | nil => simp [charListLe] at hab
    | cons b bs' =>
      cases cs with
      | nil => simp [charListLe] at hbc
      | cons c cs' =>
        by_cases h1 : a < b
        · by_cases h2 : b < c
          · have h3 : a < c := lt_trans h1 h2
            simp [charListLe, h3]
          · by_cases h3 : c < b
            · simp [charListLe, h2, h3] at hbc
            · have hbc' : b = c := le_antisymm (not_lt.1 h3) (not_lt.1 h2)
              subst hbc'
              simp [charListLe, h1]
        · by_cases h4 : b < a
          · simp [charListLe, h1, h4] at hab
          · have hab' : a = b := le_antisymm (not_lt.1 h4) (not_lt.1 h1)
            subst hab'
            simp only [charListLe, lt_irrefl, if_false] at hab
            by_cases h2 : a < c
            · simp [charListLe, h2]
            · by_cases h3 : c < a
              · simp [charListLe, h2, h3] at hbc
              · simp only [charListLe, h2, h3, if_false] at hbc ⊢
                exact ih bs' cs' hab hbc

theorem charListLe_total : ∀ as bs, charListLe as bs = true ∨ charListLe bs as = true := by
  intro as
  induction as with
  | nil => intro bs; left; rfl
  | cons a as ih =>
    intro bs
    cases bs with
    | nil => right; rfl
    | cons b bs' =>
      by_cases h1 : a < b
      · left; simp [charListLe, h1]
      · by_cases h2 : b < a
        · right; simp [charListLe, h2]
        · rcases ih bs' with h | h
          · left; simp [charListLe, h1, h2, h]
          · right; simp [charListLe, h1, h2, h]

instance : IsTrans String (fun a b => strLe a b = true) :=
  ⟨fun a b c => charListLe_trans a.data b.data c.data⟩

instance : IsTotal String (fun a b => strLe a b = true) :=
  ⟨fun a b => charListLe_total a.data b.data⟩

/-- Python's `str.endswith` (and the shape test done by `glob("*.csv")`),
as a structural computation on the character lists. -/
def strEndsWith (a b : String) : Bool :=
  a.data.drop (a.data.length - b.data.length) == b.data

/-- The location a league's files live at: the base analysis directory itself
or one of its immediate subdirectories. -/
inductive LeaguePath where
  | base : LeaguePath
  | sub : String → LeaguePath
deriving DecidableEq, Repr

/-- The observable content of the base analysis directory: names of immediate
subdirectories and names of files directly inside it. -/
structure BaseDir where
  subdirs : List String
  files : List String
deriving DecidableEq, Repr

/-- `leagues[k] = v` on a Python dict modelled as an association list:
overwrite in place when the key exists, append otherwise (insertion order is
preserved, as for Python dicts). -/
def dictInsert {α : Type} (m : List (String × α)) (k : String) (v : α) :
    List (String × α) :=
  if m.any (fun e => e.1 = k) then m.map (fun e => if e.1 = k then (k, v) else e)
  else m ++ [(k, v)]

/-- `get_available_leagues` (dashboard_app.py:30-46): if the base directory
has subdirectories, each (sorted by Python's path order) becomes a league
keyed by its name; otherwise, if CSV files sit directly in the base
directory, a single league `"default"` mapped to the base path; otherwise no
leagues.  The returned association list models the insertion order of the
Python dict. -/
def get_available_leagues (d : BaseDir) : List (String × LeaguePath) :=
  let subfolders := d.subdirs
  if subfolders.isEmpty then
    let csv_files := d.files.filter (fun f => strEndsWith f ".csv")
    if csv_files.isEmpty then [] else [("default", LeaguePath.base)]
  else
    (subfolders.insertionSort (fun a b => strLe a b = true)).foldl
      (fun leagues child => dictInsert leagues child (LeaguePath.sub child)) []

/-- Folding dict insertion over a duplicate-free key list (with keys fresh
for the accumulator) just appends one entry per key, in order. -/
theorem foldl_dictInsert {α : Type} (f : String → α) :
    ∀ (l : List String) (acc : List (String × α)),
      (∀ k ∈ l, ∀ e ∈ acc, e.1 ≠ k) → l.Nodup →
      l.foldl (fun m k => dictInsert m k (f k)) acc = acc ++ l.map (fun k => (k, f k)) := by
  intro l
  induction l with
  | nil => intro acc _ _; simp
  | cons k ks ih =>
    intro acc hdisj hnd
    have hany : acc.any (fun e => e.1 = k) = false := by
      simp only [List.any_eq_false, decide_eq_true_eq]
      intro e he
      exact hdisj k (by simp) e he
    have hstep : dictInsert acc k (f k) = acc ++ [(k, f k)] := by
      simp [dictInsert, hany]
    rw [List.foldl_cons, hstep,
      ih (acc ++ [(k, f k)]) ?_ (List.Nodup.of_cons hnd)]
    · simp
    · intro k' hk' e he
      rcases List.mem_append.1 he with h | h
      · exact hdisj k' (List.mem_cons_of_mem _ hk') e h
      · have he' : e = (k, f k) := by simpa using h
        subst he'
        intro hkk
        have hk : k = k' := hkk
        exact (List.nodup_cons.1 hnd).1 (hk ▸ hk')

/-- C1: with at least one subdirectory, `get_available_leagues` yields one
league per subdirectory, keyed by directory name, alphabetically sorted,
independently of any direct CSV files; with no subdirectory but at least one
direct CSV file it yields the single league `"default"` at the base path;
otherwise the empty mapping. -/
theorem c1_league_catalog (d : BaseDir) (hnd : d.subdirs.Nodup) :
    (d.subdirs ≠ [] →
        get_available_leagues d
            = (d.subdirs.insertionSort (fun a b => strLe a b = true)).map
                (fun n => (n, LeaguePath.sub n))
          ∧ List.Perm ((get_available_leagues d).map Prod.fst) d.subdirs
          ∧ List.Sorted (fun a b => strLe a b = true)
              ((get_available_leagues d).map Prod.fst)
          ∧ ∀ p ∈ get_available_leagues d, p.2 = LeaguePath.sub p.1)
  ∧ (d.subdirs = [] → d.files.filter (fun f => strEndsWith f ".csv") ≠ [] →
      get_available_leagues d = [("default", LeaguePath.base)])
  ∧ (d.subdirs = [] → d.files.filter (fun f => strEndsWith f ".csv") = [] →
      get_available_leagues d = []) := by
  refine ⟨?_, ?_, ?_⟩
  · intro h
    have hs : d.subdirs.isEmpty = false := by simp [List.isEmpty_iff, h]
    have hsort : (d.subdirs.insertionSort (fun a b => strLe a b = true)).Nodup :=
      (List.perm_insertionSort _ _).nodup_iff.2 hnd
    have heq : get_available_leagues d
        = (d.subdirs.insertionSort (fun a b => strLe a b = true)).map
            (fun n => (n, LeaguePath.sub n)) := by
      simp only [get_available_leagues, hs, Bool.false_eq_true, if_false]
      exact (foldl_dictInsert _ _ [] (by simp) hsort).trans (by simp)
    have hfst : (get_available_leagues d).map Prod.fst
        = d.subdirs.insertionSort (fun a b => strLe a b = true) := by
      rw [heq, List.map_map]
      exact List.map_id _
    refine ⟨heq, ?_, ?_, ?_⟩
    · rw [hfst]; exact List.perm_insertionSort _ _
    · rw [hfst]; exact List.sorted_insertionSort _ _
    · rw [heq]
      intro p hp
      rcases List.mem_map.1 hp with ⟨n, _, rfl⟩
      rfl
  · intro h hcsv
    have h1 : d.subdirs.isEmpty = true := by simp [h]
    have h2 : (d.files.filter (fun f => strEndsWith f ".csv")).isEmpty = false := by
      simp [List.isEmpty_iff, hcsv]
    simp [get_available_leagues, h1, h2]
  · intro h hcsv
    have h1 : d.subdirs.isEmpty = true := by simp [h]
    have h2 : (d.files.filter (fun f => strEndsWith f ".csv")).isEmpty = true := by
      simp [hcsv]
    simp [get_available_leagues, h1, h2]

/-- Witness for C1 at concrete directories: all three branches evaluated. -/
theorem c1_league_catalog_witness :
    (["B", "A"] : List String).Nodup
  ∧ get_available_leagues ⟨["B", "A"], ["x.csv"]⟩
      = [("A", LeaguePath.sub "A"), ("B", LeaguePath.sub "B")]
  ∧ get_available_leagues ⟨[], ["a.csv"]⟩ = [("default", LeaguePath.base)]
  ∧ get_available_leagues ⟨[], ["a.txt"]⟩ = [] :=
  ⟨by decide,
   ((c1_league_catalog ⟨["B", "A"], ["x.csv"]⟩ (by decide)).1 (by decide)).1.trans (by decide),
   (c1_league_catalog ⟨[], ["a.csv"]⟩ (by decide)).2.1 rfl (by decide),
   (c1_league_catalog ⟨[], ["a.txt"]⟩ (by decide)).2.2 rfl (by decide)⟩

/-- Failure mode of the loader: the file is absent. -/
inductive LoadError where
  | notFound : LoadError
deriving DecidableEq, Repr

/-- A concrete file on disk: a league directory plus a file name. -/
structure LeagueFile where
  dir : LeaguePath
  file : String
deriving DecidableEq, Repr

/-- `load_csv` (dashboard_app.py:19-27) without the cache layer: explicit
existence check first, then parsing.  `fs` gives the raw text of existing
files, `parse` abstracts `pd.read_csv`. -/
def load_csv (parse : String → Table) (fs : LeagueFile → Option String)
    (path : LeagueFile) : Except LoadError Table :=
  match fs path with
  | none => Except.error LoadError.notFound
  | some raw => Except.ok (parse raw)

/-- `df["league"] = league` (dashboard_app.py:152): scalar broadcast
assignment — overwrite the column in place when it exists, else append it as
the last column. -/
def tag_league (t : Table) (league : String) : Table :=
  if "league" ∈ t.cols then
    ⟨t.cols, t.rows.map (fun r => r.set (t.cols.indexOf "league") (Cell.str league))⟩
  else
    ⟨t.cols ++ ["league"], t.rows.map (fun r => r ++ [Cell.str league])⟩

/-- Column union in order of first appearance, as `pd.concat` builds the
columns of the result frame. -/
def union_cols (ts : List Table) : List String :=
  ts.foldl (fun acc t => acc ++ t.cols.filter (fun c => c ∉ acc)) []

/-- Align one row of a source frame with the concatenated column list,
missing columns becoming NaN. -/
def reindex_row (cols : List String) (allCols : List String) (r : List Cell) :
    List Cell :=
  allCols.map (fun c => if c ∈ cols then r.getD (cols.indexOf c) Cell.na else Cell.na)

/-- `pd.concat(dfs, ignore_index=True)` (dashboard_app.py:159). -/
def concat_tables (ts : List Table) : Table :=
  let allCols := union_cols ts
  ⟨allCols, (ts.map (fun t => t.rows.map (reindex_row t.cols allCols))).flatten⟩

/-- The per-league loop of dashboard_app.py:143-153: returns the warnings
(one per league whose file is missing, in selection order) and the list of
collected, league-tagged tables (in selection order). -/
def collect_tables (parse : String → Table) (fs : LeagueFile → Option String)
    (leagues : String → LeaguePath) (analysisFile : String) :
    List String → List String × List Table
  | [] => ([], [])
  | league :: rest =>
    let r := collect_tables parse fs leagues analysisFile rest
    match load_csv parse fs ⟨leagues league, analysisFile⟩ with
    | Except.error _ => (league :: r.1, r.2)
    | Except.ok df => (r.1, tag_league df league :: r.2)

/-- Failure mode of the merge: no table collected at all. -/
inductive MergeError where
  | noData : MergeError
deriving DecidableEq, Repr

/-- dashboard_app.py:141-159: run the per-league loop, stop with `NoData`
when nothing was collected, otherwise concatenate. -/
def merge_selected (parse : String → Table) (fs : LeagueFile → Option String)
    (leagues : String → LeaguePath) (analysisFile : String)
    (selected : List String) : Except MergeError Table :=
  let dfs := (collect_tables parse fs leagues analysisFile selected).2
  if dfs.isEmpty then Except.error MergeError.noData
  else Except.ok (concat_tables dfs)

theorem getD_set_self {α : Type} (r : List α) (i : ℕ) (v d : α) (h : i < r.length) :
    (r.set i v).getD i d = v := by
  induction r generalizing i with
  | nil => simp at h
  | cons a as ih =>
    cases i with
    | zero => rfl
    | succ j => exact ih j (by simpa using h)

theorem indexOf_append_self (l : List String) (a : String) (h : a ∉ l) :
    (l ++ [a]).indexOf a = l.length := by
  induction l with
  | nil => simp [List.indexOf_cons_self]
  | cons b bs ih =>
    have hb : b ≠ a := fun hab => h (hab ▸ List.mem_cons_self b bs)
    have : ((b :: bs) ++ [a]).indexOf a = (bs ++ [a]).indexOf a + 1 := by
      simpa using List.indexOf_cons_ne (bs ++ [a]) hb
    rw [this, ih (fun hm => h (List.mem_cons_of_mem _ hm))]
    rfl

theorem getD_append_length {α : Type} (r : List α) (v d : α) :
    (r ++ [v]).getD r.length d = v := by
  induction r with
  | nil => rfl
  | cons a as ih => simp [ih]

/-- Tagging writes the league name into every row's `league` cell. -/
theorem tag_league_column (t : Table) (l : String) (hwf : t.WF) :
    getColumn (tag_league t l) "league" = List.replicate t.rows.length (Cell.str l) := by
  by_cases hmem : "league" ∈ t.cols
  · have hidx : t.cols.indexOf "league" < t.cols.length :=
      List.indexOf_lt_length.2 hmem
    simp only [tag_league, hmem, if_true, getColumn, List.map_map]
    rw [List.map_eq_replicate_iff]
    intro r hr
    simp only [Function.comp_apply]
    exact getD_set_self r _ _ _ (by rw [hwf r hr]; exact hidx)
  · simp only [tag_league, hmem, if_false, getColumn, List.map_map]
    rw [List.map_eq_replicate_iff]
    intro r hr
    simp only [Function.comp_apply, indexOf_append_self t.cols "league" hmem]
    rw [← hwf r hr]
    exact getD_append_length r _ _

/-- The per-league loop warns exactly on the leagues whose file is missing
and collects exactly the tagged tables of the leagues whose file exists,
both in selection order. -/
theorem collect_tables_spec (parse : String → Table) (fs : LeagueFile → Option String)
    (leagues : String → LeaguePath) (file : String) (selected : List String) :
    (collect_tables parse fs leagues file selected).1
        = selected.filter (fun l => (fs ⟨leagues l, file⟩).isNone)
  ∧ (collect_tables parse fs leagues file selected).2
        = (selected.filter (fun l => (fs ⟨leagues l, file⟩).isSome)).map
            (fun l => tag_league (parse ((fs ⟨leagues l, file⟩).getD "")) l) := by
  induction selected with
  | nil => exact ⟨rfl, rfl⟩
  | cons l rest ih =>
    cases hfs : fs ⟨leagues l, file⟩ with
    | none => simp [collect_tables, load_csv, hfs, ih.1, ih.2]
    | some raw => simp [collect_tables, load_csv, hfs, ih.1, ih.2]

/-- C2: in the selection-order loop, each league with a missing file yields
exactly one warning (the loader's `NotFound`) and is skipped; each loaded
table is tagged row-wise with its league name; and the merge fails with
`NoData` precisely when no table at all was collected. -/
theorem c2_selection_merger (parse : String → Table) (fs : LeagueFile → Option String)
    (leagues : String → LeaguePath) (file : String) (selected : List String) :
    (∀ l, fs ⟨leagues l, file⟩ = none ↔
        load_csv parse fs ⟨leagues l, file⟩ = Except.error LoadError.notFound)
  ∧ (collect_tables parse fs leagues file selected).1
        = selected.filter (fun l => (fs ⟨leagues l, file⟩).isNone)
  ∧ (collect_tables parse fs leagues file selected).2
        = (selected.filter (fun l => (fs ⟨leagues l, file⟩).isSome)).map
            (fun l => tag_league (parse ((fs ⟨leagues l, file⟩).getD "")) l)
  ∧ (∀ t l, Table.WF t → getColumn (tag_league t l) "league"
        = List.replicate t.rows.length (Cell.str l))
  ∧ (merge_selected parse fs leagues file selected = Except.error MergeError.noData ↔
      ∀ l ∈ selected, fs ⟨leagues l, file⟩ = none) := by
  refine ⟨?_, (collect_tables_spec parse fs leagues file selected).1,
    (collect_tables_spec parse fs leagues file selected).2,
    fun t l hwf => tag_league_column t l hwf, ?_⟩
  · intro l
    cases hfs : fs ⟨leagues l, file⟩ with
    | none => simp [load_csv, hfs]
    | some raw => simp [load_csv, hfs]
  · have hdfs := (collect_tables_spec parse fs leagues file selected).2
    simp only [merge_selected, hdfs]
    by_cases h : selected.filter (fun l => (fs ⟨leagues l, file⟩).isSome) = []
    · rw [h]
      simp only [List.map_nil, List.isEmpty_nil, if_true, true_iff]
      intro l hl
      have h2 := List.filter_eq_nil_iff.1 h l hl
      simpa [Option.isNone_iff_eq_none] using h2
    · have hne : ((selected.filter (fun l => (fs ⟨leagues l, file⟩).isSome)).map
          (fun l => tag_league (parse ((fs ⟨leagues l, file⟩).getD "")) l)).isEmpty
            = false := by
        simp [List.isEmpty_iff, h]
      rw [hne]
      simp only [Bool.false_eq_true, if_false]
      constructor
      · intro hcontra
        exact absurd hcontra (by simp)
      · intro hall
        exfalso
        rcases List.exists_mem_of_ne_nil _ h with ⟨l, hl⟩
        have hmem := List.mem_filter.1 hl
        have := hall l hmem.1
        rw [this] at hmem
        simp at hmem

/-- C7: when the requested path does not exist the loader fails with
`NotFound`, never returns a table, and does so independently of the parser
(the existence check precedes any parsing). -/
theorem c7_loader_not_found (parse : String → Table) (fs : LeagueFile → Option String)
    (p : LeagueFile) (h : fs p = none) :
    load_csv parse fs p = Except.error LoadError.notFound
  ∧ (∀ t, load_csv parse fs p ≠ Except.ok t)
  ∧ (∀ parse2, load_csv parse2 fs p = load_csv parse fs p) := by
  refine ⟨by simp [load_csv, h], ?_, ?_⟩
  · intro t hc
    simp [load_csv, h] at hc
  · intro parse2
    simp [load_csv, h]

/-- Witness for C7 at a concrete missing file. -/
theorem c7_loader_not_found_witness :
    ((fun _ : LeagueFile => (none : Option String))
        ⟨LeaguePath.base, "analisi_stagioni.csv"⟩ = none)
  ∧ load_csv (fun _ => Table.mk [] []) (fun _ => none)
        ⟨LeaguePath.base, "analisi_stagioni.csv"⟩
      = Except.error LoadError.notFound :=
  ⟨rfl, (c7_loader_not_found (fun _ => Table.mk [] []) (fun _ => none)
    ⟨LeaguePath.base, "analisi_stagioni.csv"⟩ rfl).1⟩

/-- The two values of the `analysis_type` radio button. -/
inductive Granularity where
  | stagione : Granularity
  | giornata : Granularity
deriving DecidableEq, Repr

/-- dashboard_app.py:140: the analysis file chosen by the granularity. -/
def analysis_file : Granularity → String
  | .stagione => "analisi_stagioni.csv"
  | .giornata => "analisi_giornate.csv"

/-- dashboard_app.py:162-166: identifying columns, `round` only for the
per-round analysis. -/
def id_cols : Granularity → List String
  | .stagione => ["league", "season"]
  | .giornata => ["league", "season", "round"]

/-- dashboard_app.py:168-170: preferred column ordering. -/
def order_cols (g : Granularity) (outcomes : List String) : List String :=
  id_cols g ++ outcomes.map (fun o => o ++ "_count")
    ++ outcomes.map (fun o => o ++ "_percentage")

/-- dashboard_app.py:172: preferred columns actually present. -/
def available_cols (t : Table) (g : Granularity) (outcomes : List String) :
    List String :=
  (order_cols g outcomes).filter (fun c => c ∈ t.cols)

/-- dashboard_app.py:173: the remaining columns, in original order. -/
def extra_cols (t : Table) (g : Granularity) (outcomes : List String) :
    List String :=
  t.cols.filter (fun c => c ∉ available_cols t g outcomes)

/-- `data[names]`: column selection/reordering by label. -/
def select_cols (t : Table) (names : List String) : Table :=
  ⟨names, t.rows.map (fun r => names.map (fun n => r.getD (t.cols.indexOf n) Cell.na))⟩

/-- dashboard_app.py:172-174: the whole column reordering step. -/
def reorder_columns (t : Table) (g : Granularity) (outcomes : List String) : Table :=
  select_cols t (available_cols t g outcomes ++ extra_cols t g outcomes)

/-- C3: the Column Orderer puts first the present identifying columns
(`league`, `season`, and `round` exactly for round granularity), then the
present `_count` columns in selection order, then the present `_percentage`
columns in selection order, then all remaining columns in original relative
order; absent preferred columns are skipped.  The spec's concrete example is
included. -/
theorem c3_column_order (t : Table) (g : Granularity) (outcomes : List String) :
    (reorder_columns t g outcomes).cols
        = (id_cols g).filter (fun c => c ∈ t.cols)
          ++ (outcomes.map (fun o => o ++ "_count")).filter (fun c => c ∈ t.cols)
          ++ (outcomes.map (fun o => o ++ "_percentage")).filter (fun c => c ∈ t.cols)
          ++ t.cols.filter (fun c => c ∉ available_cols t g outcomes)
  ∧ id_cols Granularity.stagione = ["league", "season"]
  ∧ id_cols Granularity.giornata = ["league", "season", "round"]
  ∧ (reorder_columns
        ⟨["round", "extra", "season", "over_25_percentage", "league", "over_25_count"], []⟩
        Granularity.giornata ["over_25"]).cols
      = ["league", "season", "round", "over_25_count", "over_25_percentage", "extra"] := by
  refine ⟨?_, rfl, rfl, by decide⟩
  rw [show (reorder_columns t g outcomes).cols
      = available_cols t g outcomes ++ extra_cols t g outcomes from rfl, extra_cols]
  congr 1
  rw [available_cols, order_cols, List.filter_append, List.filter_append]

theorem string_append_right_inj (s : String) : ∀ a b : String, a ++ s = b ++ s → a = b := by
  intro a b h
  have hd : a.data ++ s.data = b.data ++ s.data := by
    have := congrArg String.data h
    simpa [String.data_append] using this
  exact String.ext (List.append_left_injective s.data hd)

theorem data_getLast_append (a b : String) (c : Char) (l : List Char)
    (hb : b.data = l ++ [c]) : (a ++ b).data.getLast? = some c := by
  rw [String.data_append, hb, ← List.append_assoc]
  exact List.getLast?_concat _

theorem append_count_ne_append_pct (a b : String) :
    a ++ "_count" ≠ b ++ "_percentage" := by
  intro h
  have h1 : (a ++ "_count").data.getLast? = some 't' :=
    data_getLast_append a "_count" 't' "_coun".data (by decide)
  have h2 : (b ++ "_percentage").data.getLast? = some 'e' :=
    data_getLast_append b "_percentage" 'e' "_percentag".data (by decide)
  rw [h, h2] at h1
  exact absurd h1 (by decide)

theorem id_col_ne_append_count (x : String) (hx : x ∈ ["league", "season", "round"])
    (a : String) : x ≠ a ++ "_count" := by
  intro h
  have h1 : (a ++ "_count").data.getLast? = some 't' :=
    data_getLast_append a "_count" 't' "_coun".data (by decide)
  rw [← h] at h1
  fin_cases hx <;> exact absurd h1 (by decide)

theorem id_col_ne_append_pct (x : String) (hx : x ∈ ["league", "season", "round"])
    (a : String) : x ≠ a ++ "_percentage" := by
  intro h
  have h1 : x.data.length = a.data.length + ("_percentage" : String).data.length := by
    have := congrArg (fun s => s.data.length) h
    simpa [String.data_append] using this
  have hp : ("_percentage" : String).data.length = 11 := by decide
  have e1 : ("league" : String).data.length = 6 := by decide
  have e2 : ("season" : String).data.length = 6 := by decide
  have e3 : ("round" : String).data.length = 5 := by decide
  fin_cases hx <;> omega

/-- With pairwise distinct outcomes the preferred column list has no
duplicate names: `_count` and `_percentage` names cannot collide with each
other or with the identifying columns. -/
theorem order_cols_nodup (g : Granularity) (outcomes : List String)
    (h : outcomes.Nodup) : (order_cols g outcomes).Nodup := by
  have hid : (id_cols g).Nodup := by cases g <;> decide
  have hidsub : ∀ x ∈ id_cols g, x ∈ ["league", "season", "round"] := by
    cases g <;> intro x hx <;> fin_cases hx <;> decide
  have hcnt : (outcomes.map (fun o => o ++ "_count")).Nodup :=
    h.map (fun a b hab => string_append_right_inj "_count" a b hab)
  have hpct : (outcomes.map (fun o => o ++ "_percentage")).Nodup :=
    h.map (fun a b hab => string_append_right_inj "_percentage" a b hab)
  have hd1 : (id_cols g).Disjoint (outcomes.map (fun o => o ++ "_count")) := by
    intro x hx hy
    rcases List.mem_map.1 hy with ⟨o, _, rfl⟩
    exact id_col_ne_append_count _ (hidsub _ hx) o rfl
  have hd2 : (id_cols g).Disjoint (outcomes.map (fun o => o ++ "_percentage")) := by
    intro x hx hy
    rcases List.mem_map.1 hy with ⟨o, _, rfl⟩
    exact id_col_ne_append_pct _ (hidsub _ hx) o rfl
  have hd3 : (outcomes.map (fun o => o ++ "_count")).Disjoint
      (outcomes.map (fun o => o ++ "_percentage")) := by
    intro x hx hy
    rcases List.mem_map.1 hx with ⟨a, _, rfl⟩
    rcases List.mem_map.1 hy with ⟨b, _, hab⟩
    exact append_count_ne_append_pct a b hab.symm
  rw [order_cols, List.append_assoc]
  refine hid.append (hcnt.append hpct hd3) ?_
  intro x hx hy
  rcases List.mem_append.1 hy with hy | hy
  · exact hd1 hx hy
  · exact hd2 hx hy

/-- Selecting a duplicate-free permutation of the columns permutes each
well-formed row accordingly. -/
theorem map_getD_indexOf (cols : List String) :
    ∀ (r : List Cell), cols.Nodup → r.length = cols.length →
      cols.map (fun n => r.getD (cols.indexOf n) Cell.na) = r := by
  induction cols with
  | nil =>
    intro r _ hlen
    rw [List.length_eq_zero.1 hlen]
    rfl
  | cons c cs ih =>
    intro r hnd hlen
    cases r with
    | nil => simp at hlen
    | cons a as =>
      have hne : ∀ n ∈ cs, n ≠ c := fun n hn hnc =>
        (List.nodup_cons.1 hnd).1 (hnc ▸ hn)
      have htail : cs.map (fun n => (a :: as).getD ((c :: cs).indexOf n) Cell.na)
          = cs.map (fun n => as.getD (cs.indexOf n) Cell.na) := by
        apply List.map_congr_left
        intro n hn
        rw [List.indexOf_cons_ne cs (Ne.symm (hne n hn))]
        rfl
      simp only [List.map_cons, List.indexOf_cons_self, List.getD_cons_zero, htail]
      rw [ih as (List.nodup_cons.1 hnd).2 (by simpa using hlen)]

/-- A duplicate-free selection `A` of the columns followed by the rest is a
permutation of the columns. -/
theorem avail_extra_perm (A cols : List String) (hA : A.Nodup)
    (hsub : ∀ a ∈ A, a ∈ cols) (hc : cols.Nodup) :
    List.Perm (A ++ cols.filter (fun c => c ∉ A)) cols := by
  have h1 : List.Perm (cols.filter (fun c => c ∈ A) ++ cols.filter (fun c => c ∉ A))
      cols := by
    have := List.filter_append_perm (fun c => decide (c ∈ A)) cols
    simpa using this
  have h2 : List.Perm A (cols.filter (fun c => c ∈ A)) := by
    apply (List.perm_ext_iff_of_nodup hA (hc.filter _)).2
    intro a
    simp only [List.mem_filter, decide_eq_true_eq]
    exact ⟨fun ha => ⟨hsub a ha, ha⟩, fun ha => ha.2⟩
  exact (h2.append_right _).trans h1

/-- C10: with pairwise distinct outcomes and duplicate-free columns, the
Column Orderer permutes the columns (nothing dropped or duplicated) and each
row of the output is the corresponding permutation of the input row, so no
cell value changes. -/
theorem c10_reorder_permutation (t : Table) (g : Granularity)
    (outcomes : List String) (hout : outcomes.Nodup) (hcols : t.cols.Nodup)
    (hwf : t.WF) :
    List.Perm (reorder_columns t g outcomes).cols t.cols
  ∧ List.Forall₂ (fun r' r => List.Perm r' r) (reorder_columns t g outcomes).rows
      t.rows := by
  have hA : (available_cols t g outcomes).Nodup :=
    (order_cols_nodup g outcomes hout).filter _
  have hsub : ∀ a ∈ available_cols t g outcomes, a ∈ t.cols := by
    intro a ha
    have := (List.mem_filter.1 ha).2
    simpa using this
  have hperm : List.Perm (available_cols t g outcomes ++ extra_cols t g outcomes)
      t.cols := avail_extra_perm _ _ hA hsub hcols
  refine ⟨hperm, ?_⟩
  apply List.forall₂_map_left_iff.2
  apply List.forall₂_same.2
  intro r hr
  have hrow : t.cols.map (fun n => r.getD (t.cols.indexOf n) Cell.na) = r :=
    map_getD_indexOf t.cols r hcols (hwf r hr)
  have h1 := hperm.map (fun n => r.getD (t.cols.indexOf n) Cell.na)
  rw [hrow] at h1
  exact h1

/-- A concrete combined table used to instantiate the theorems: columns as in
the spec's Column Orderer example, one well-formed row. -/
def exampleTable : Table :=
  ⟨["round", "extra", "season", "over_25_percentage", "league", "over_25_count"],
   [[Cell.num 1, Cell.str "x", Cell.num 2023, Cell.num 50, Cell.str "L", Cell.num 10]]⟩

/-- Witness for C10 on the concrete example table. -/
theorem c10_reorder_permutation_witness :
    (["over_25"] : List String).Nodup
  ∧ List.Perm (reorder_columns exampleTable Granularity.giornata ["over_25"]).cols
      exampleTable.cols
  ∧ List.Forall₂ (fun r' r => List.Perm r' r)
      (reorder_columns exampleTable Granularity.giornata ["over_25"]).rows
      exampleTable.rows :=
  ⟨by decide,
   (c10_reorder_permutation exampleTable Granularity.giornata ["over_25"] (by decide)
      (by decide) (by intro r hr; fin_cases hr; rfl)).1,
   (c10_reorder_permutation exampleTable Granularity.giornata ["over_25"] (by decide)
      (by decide) (by intro r hr; fin_cases hr; rfl)).2⟩

theorem getD_map_lt {α β : Type} (f : α → β) (l : List α) (i : ℕ) (da : α) (db : β)
    (h : i < l.length) : (l.map f).getD i db = f (l.getD i da) := by
  induction l generalizing i with
  | nil => simp at h
  | cons a as ih =>
    cases i with
    | zero => rfl
    | succ j => exact ih j (by simpa using h)

theorem getD_zip {α β : Type} (l1 : List α) (l2 : List β) (i : ℕ) (d1 : α) (d2 : β)
    (h1 : i < l1.length) (h2 : i < l2.length) :
    (l1.zip l2).getD i (d1, d2) = (l1.getD i d1, l2.getD i d2) := by
  induction l1 generalizing i l2 with
  | nil => simp at h1
  | cons a as ih =>
    cases l2 with
    | nil => simp at h2
    | cons b bs =>
      cases i with
      | zero => rfl
      | succ j => exact ih bs j (by simpa using h1) (by simpa using h2)

theorem getD_indexOf_self (l : List String) (c d : String) (h : c ∈ l) :
    l.getD (l.indexOf c) d = c := by
  induction l with
  | nil => simp at h
  | cons a as ih =>
    by_cases hac : c = a
    · subst hac
      rw [List.indexOf_cons_self]
      rfl
    · have hm : c ∈ as := by
        rcases List.mem_cons.1 h with h' | h'
        · exact absurd h' hac
        · exact h'
      rw [List.indexOf_cons_ne as (Ne.symm hac)]
      exact ih hm

theorem getD_eq_default_of_le {α : Type} (l : List α) (i : ℕ) (d : α)
    (h : l.length ≤ i) : l.getD i d = d := by
  induction l generalizing i with
  | nil => cases i <;> rfl
  | cons a as ih =>
    cases i with
    | zero => simp at h
    | succ j => exact ih j (by simpa using h)

/-- `round(x, 2)` on an exact numeric value. -/
def round2 (q : ℚ) : ℚ := (round (q * 100) : ℤ) / 100

/-- `astype(float).round(2)` on one cell (numeric cells only; NaN stays
NaN). -/
def round_cell : Cell → Cell
  | .num q => .num (round2 q)
  | c => c

/-- `format_percentage_columns` (dashboard_app.py:50-58): on a copy of the
frame, every column whose name ends in `_percentage` is rounded to two
decimals; all other columns are untouched.  The source mutates only the
copy `df_formatted = df.copy()`, which licenses this pure embedding. -/
def format_percentage_columns (t : Table) : Table :=
  ⟨t.cols,
   t.rows.map (fun r => (t.cols.zip r).map
     (fun p => if strEndsWith p.1 "_percentage" then round_cell p.2 else p.2))⟩

/-- The columns `render_table` highlights (dashboard_app.py:70). -/
def highlight_cols (selected : List String) : List String :=
  selected.map (fun o => o ++ "_percentage")

/-- `s.max()` on a series, NaN/non-numeric entries skipped as pandas
reductions do. -/
def series_max (vals : List Cell) : Option ℚ := (numsOf vals).max?

/-- `highlight_max` (dashboard_app.py:72-76) on one column: in a selected
percentage column every cell equal to the column maximum is flagged
(`s == s.max()`); all other columns get no flags. -/
def highlight_flags_col (selected : List String) (name : String)
    (vals : List Cell) : List Bool :=
  if name ∈ highlight_cols selected then
    vals.map (fun c =>
      match numOf c, series_max vals with
      | some q, some m => decide (q = m)
      | _, _ => false)
  else vals.map (fun _ => false)

/-- `df_display.style.apply(highlight_max, axis=0)` (dashboard_app.py:78):
the flag matrix, one flag list per column. -/
def highlight_flags (t : Table) (selected : List String) : List (List Bool) :=
  t.cols.map (fun n => highlight_flags_col selected n (getColumn t n))

/-- `df[col].mean()`: arithmetic mean of the numeric entries. -/
def col_mean (t : Table) (c : String) : ℚ :=
  let v := numsOf (getColumn t c)
  v.sum / v.length

/-- The `summaries` dict built by the loop of dashboard_app.py:88-92: one
entry per selected outcome whose `_percentage` column exists. -/
def summaries_of (t : Table) (selected : List String) : List (String × ℚ) :=
  selected.filterMap (fun o =>
    if (o ++ "_percentage") ∈ t.cols then some (o, col_mean t (o ++ "_percentage"))
    else none)

/-- `compute_summary_metrics` (dashboard_app.py:82-94). -/
def compute_summary_metrics (t : Table) (selected : List String) :
    Option (List (String × ℚ)) :=
  if t.isEmpty then none
  else if (summaries_of t selected).isEmpty then none
  else some ((summaries_of t selected).map (fun p => (p.1, round2 p.2)))

/-- Column-wise description of the formatter: each column is mapped cell-wise
by the rounding transform exactly when its name ends in `_percentage`. -/
theorem format_cell_at (t : Table) (hwf : t.WF) (c : String) (hc : c ∈ t.cols) :
    getColumn (format_percentage_columns t) c
      = (getColumn t c).map
          (fun x => if strEndsWith c "_percentage" then round_cell x else x) := by
  have hidx : t.cols.indexOf c < t.cols.length := List.indexOf_lt_length.2 hc
  simp only [format_percentage_columns, getColumn, List.map_map]
  apply List.map_congr_left
  intro r hr
  have hlen := hwf r hr
  simp only [Function.comp_apply]
  rw [getD_map_lt _ _ _ ("", Cell.na) _
      (by rw [List.length_zip]; omega)]
  rw [getD_zip _ _ _ _ _ hidx (by omega)]
  rw [getD_indexOf_self t.cols c "" hc]

/-- C6: the Presentation Formatter keeps the column list, rounds every
`_percentage` column (selected or not) cell-wise to two decimals, leaves all
other columns unchanged, and reproduces the spec's example.  The source
builds the result on `df.copy()`, so the input frame is not mutated; the
embedding is accordingly a pure function of the input. -/
theorem c6_formatter (t : Table) (hwf : t.WF) :
    (format_percentage_columns t).cols = t.cols
  ∧ (∀ c ∈ t.cols, strEndsWith c "_percentage" = true →
      getColumn (format_percentage_columns t) c = (getColumn t c).map round_cell)
  ∧ (∀ c ∈ t.cols, strEndsWith c "_percentage" = false →
      getColumn (format_percentage_columns t) c = getColumn t c)
  ∧ format_percentage_columns ⟨["p_percentage"], [[Cell.num 33.333], [Cell.num 66.667]]⟩
      = ⟨["p_percentage"], [[Cell.num 33.33], [Cell.num 66.67]]⟩ := by
  refine ⟨rfl, ?_, ?_, ?_⟩
  · intro c hc hends
    rw [format_cell_at t hwf c hc]
    apply List.map_congr_left
    intro x _
    simp [hends]
  · intro c hc hends
    rw [format_cell_at t hwf c hc]
    conv_rhs => rw [← List.map_id (getColumn t c)]
    apply List.map_congr_left
    intro x _
    simp [hends]
  · have h1 : round2 33.333 = 33.33 := by
      rw [round2]
      norm_num [round_eq]
    have h2 : round2 66.667 = 66.67 := by
      rw [round2]
      norm_num [round_eq]
    have hcond : strEndsWith "p_percentage" "_percentage" = true := by decide
    simp [format_percentage_columns, round_cell, hcond, h1, h2]

/-- Witness for C6 at the spec's concrete two-row table. -/
theorem c6_formatter_witness :
    Table.WF ⟨["p_percentage"], [[Cell.num 33.333], [Cell.num 66.667]]⟩
  ∧ (format_percentage_columns
      ⟨["p_percentage"], [[Cell.num 33.333], [Cell.num 66.667]]⟩).cols
      = ["p_percentage"] :=
  ⟨by intro r hr; fin_cases hr <;> rfl,
   (c6_formatter ⟨["p_percentage"], [[Cell.num 33.333], [Cell.num 66.667]]⟩
      (by intro r hr; fin_cases hr <;> rfl)).1⟩

/-- C4: a cell of the displayed table is flagged iff its column is
`<outcome>_percentage` for a selected outcome and its value equals the
column maximum; ties are all flagged, other columns get no flags.  Includes
the spec's `[50, 50, 10]` tie example and a non-selected column. -/
theorem c4_highlight_max (t : Table) (selected : List String) (j i : ℕ)
    (hj : j < t.cols.length) :
    (((highlight_flags t selected).getD j []).getD i false = true ↔
      (t.cols.getD j "" ∈ highlight_cols selected ∧
        ∃ q, (getColumn t (t.cols.getD j "")).getD i Cell.na = Cell.num q ∧
          series_max (getColumn t (t.cols.getD j "")) = some q))
  ∧ highlight_flags_col ["x"] "x_percentage"
      [Cell.num 50, Cell.num 50, Cell.num 10] = [true, true, false]
  ∧ highlight_flags_col ["x"] "other"
      [Cell.num 50, Cell.num 50, Cell.num 10] = [false, false, false] := by
  refine ⟨?_, by decide, by decide⟩
  have hget : (highlight_flags t selected).getD j []
      = highlight_flags_col selected (t.cols.getD j "")
          (getColumn t (t.cols.getD j "")) := by
    rw [highlight_flags]
    exact getD_map_lt _ t.cols j "" [] hj
  rw [hget]
  set name := t.cols.getD j ""
  set vals := getColumn t name
  rw [highlight_flags_col]
  by_cases hn : name ∈ highlight_cols selected
  · rw [if_pos hn]
    by_cases hi : i < vals.length
    · rw [getD_map_lt _ vals i Cell.na false hi]
      cases hm : series_max vals with
      | none => cases hcell : vals.getD i Cell.na <;> simp [numOf, hm]
      | some m =>
        cases hcell : vals.getD i Cell.na with
        | na => simp [numOf, hn, hm]
        | str s => simp [numOf, hn, hm]
        | num q => simp [numOf, hn, hm, decide_eq_true_eq, eq_comm]
    · have h1 : (vals.map (fun c =>
          match numOf c, series_max vals with
          | some q, some m => decide (q = m)
          | _, _ => false)).getD i false = false :=
        getD_eq_default_of_le _ i false (by simpa using not_lt.1 hi)
      have h2 : vals.getD i Cell.na = Cell.na :=
        getD_eq_default_of_le _ i _ (not_lt.1 hi)
      rw [h1, h2]
      simp
  · rw [if_neg hn]
    have h1 : (vals.map (fun _ => false)).getD i false = false := by
      by_cases hi : i < vals.length
      · exact getD_map_lt _ vals i Cell.na false hi
      · exact getD_eq_default_of_le _ i false (by simpa using not_lt.1 hi)
    simp [h1, hn]

/-- The spec's tie example as a table: one selected percentage column with a
tie at the maximum. -/
def hTable : Table := ⟨["x_percentage"], [[Cell.num 50], [Cell.num 50], [Cell.num 10]]⟩

/-- Witness for C4 at the tie example. -/
theorem c4_highlight_max_witness :
    0 < hTable.cols.length
  ∧ (((highlight_flags hTable ["x"]).getD 0 []).getD 0 false = true ↔
      (hTable.cols.getD 0 "" ∈ highlight_cols ["x"] ∧
        ∃ q, (getColumn hTable (hTable.cols.getD 0 "")).getD 0 Cell.na = Cell.num q ∧
          series_max (getColumn hTable (hTable.cols.getD 0 "")) = some q)) :=
  ⟨by decide, (c4_highlight_max hTable ["x"] 0 0 (by decide)).1⟩

theorem filterMap_ite {α β : Type} (P : α → Prop) [DecidablePred P] (f : α → β)
    (l : List α) :
    l.filterMap (fun a => if P a then some (f a) else none)
      = (l.filter (fun a => P a)).map f := by
  induction l with
  | nil => rfl
  | cons a as ih =>
    by_cases h : P a
    · simp [List.filterMap_cons, List.filter_cons, h, ih]
    · simp [List.filterMap_cons, List.filter_cons, h, ih]

theorem summaries_of_eq (t : Table) (selected : List String) :
    summaries_of t selected
      = (selected.filter (fun o => (o ++ "_percentage") ∈ t.cols)).map
          (fun o => (o, col_mean t (o ++ "_percentage"))) :=
  filterMap_ite _ _ _

/-- The spec's Summary Aggregator example: one row whose single percentage
column has mean 55.5, with `gg_percentage` absent. -/
def sTable : Table := ⟨["over_25_percentage"], [[Cell.num 55.5]]⟩

/-- C5: the Summary Aggregator returns `none` exactly when the table is
empty or no selected outcome has a `_percentage` column; otherwise it maps
each selected outcome with a present column, in selection order, to the
column mean rounded to two decimals; outcomes with absent columns are
silently omitted (spec example included). -/
theorem c5_summary_aggregator (t : Table) (selected : List String) :
    (compute_summary_metrics t selected = none ↔
      (t.isEmpty = true ∨ ∀ o ∈ selected, (o ++ "_percentage") ∉ t.cols))
  ∧ (t.isEmpty = false →
      selected.filter (fun o => (o ++ "_percentage") ∈ t.cols) ≠ [] →
      compute_summary_metrics t selected
        = some ((selected.filter (fun o => (o ++ "_percentage") ∈ t.cols)).map
            (fun o => (o, round2 (col_mean t (o ++ "_percentage"))))))
  ∧ compute_summary_metrics sTable ["over_25", "gg"] = some [("over_25", 55.5)] := by
  refine ⟨?_, ?_, ?_⟩
  · rw [compute_summary_metrics, summaries_of_eq]
    by_cases he : t.isEmpty = true
    · simp [he]
    · have he' : t.isEmpty = false := by simpa using he
      simp only [he', Bool.false_eq_true, if_false]
      by_cases hf : selected.filter (fun o => (o ++ "_percentage") ∈ t.cols) = []
      · rw [hf]
        simp only [List.map_nil, List.isEmpty_nil, if_true]
        constructor
        · intro _
          right
          intro o ho
          have := List.filter_eq_nil_iff.1 hf o ho
          simpa using this
        · intro _
          trivial
      · have hne : ((selected.filter (fun o => (o ++ "_percentage") ∈ t.cols)).map
            (fun o => (o, col_mean t (o ++ "_percentage")))).isEmpty = false := by
          simp [List.isEmpty_iff, hf]
        simp only [hne, Bool.false_eq_true, if_false]
        constructor
        · intro hcontra
          exact absurd hcontra (by simp)
        · intro hor
          rcases hor with h | h
          · exact absurd h (by simp [he'])
          · exfalso
            rcases List.exists_mem_of_ne_nil _ hf with ⟨o, ho⟩
            have hmem := List.mem_filter.1 ho
            have h2 := h o hmem.1
            have h3 := hmem.2
            simp at h3
            exact h2 h3
  · intro he hf
    have hne : ((selected.filter (fun o => (o ++ "_percentage") ∈ t.cols)).map
        (fun o => (o, col_mean t (o ++ "_percentage")))).isEmpty = false := by
      simp [List.isEmpty_iff, hf]
    rw [compute_summary_metrics, summaries_of_eq]
    simp only [he, Bool.false_eq_true, if_false, hne, List.map_map]
    rfl
  · have hcol : getColumn sTable "over_25_percentage" = [Cell.num 55.5] := rfl
    have hm : col_mean sTable "over_25_percentage" = 55.5 := by
      simp [col_mean, hcol, numsOf, numOf]
    have hr : round2 (55.5 : ℚ) = 55.5 := by
      rw [round2]
      norm_num [round_eq]
    have hie : sTable.isEmpty = false := rfl
    have hfil : (["over_25", "gg"].filter
        (fun o => (o ++ "_percentage") ∈ sTable.cols)) = ["over_25"] := by decide
    rw [compute_summary_metrics, summaries_of_eq, hfil]
    simp [hie, hm, hr]

/-- Witness for C5 at the spec's concrete table. -/
theorem c5_summary_aggregator_witness :
    sTable.isEmpty = false
  ∧ (["over_25", "gg"].filter (fun o => (o ++ "_percentage") ∈ sTable.cols)) ≠ []
  ∧ compute_summary_metrics sTable ["over_25", "gg"]
      = some ((["over_25", "gg"].filter
            (fun o => (o ++ "_percentage") ∈ sTable.cols)).map
          (fun o => (o, round2 (col_mean sTable (o ++ "_percentage"))))) :=
  ⟨rfl, by decide, (c5_summary_aggregator sTable ["over_25", "gg"]).2.1 rfl (by decide)⟩

/-- What the "Partite analizzate" widget shows (dashboard_app.py:190-193):
an integer count or the "Dato non disponibile" message. -/
inductive MetricDisplay where
  | count : ℤ → MetricDisplay
  | notAvailable : MetricDisplay
deriving DecidableEq, Repr

/-- Python's `int(...)` on an exact numeric value: truncation toward zero. -/
def truncQ (q : ℚ) : ℤ := if 0 ≤ q then ⌊q⌋ else ⌈q⌉

/-- dashboard_app.py:184: `data["total_matches"].sum()` when the column
exists, `None` otherwise. -/
def total_matches_value (t : Table) : Option ℚ :=
  if "total_matches" ∈ t.cols then some (numsOf (getColumn t "total_matches")).sum
  else none

/-- dashboard_app.py:190-193: the widget value derived from the sum. -/
def partite_metric (t : Table) : MetricDisplay :=
  match total_matches_value t with
  | some q => MetricDisplay.count (truncQ q)
  | none => MetricDisplay.notAvailable

/-- C9: when a `total_matches` column exists the widget reports the
integer-truncated column sum, and when it is absent it reports
"not available"; neither case is an error. -/
theorem c9_total_matches (t : Table) :
    ("total_matches" ∈ t.cols →
      partite_metric t
        = MetricDisplay.count (truncQ (numsOf (getColumn t "total_matches")).sum))
  ∧ ("total_matches" ∉ t.cols → partite_metric t = MetricDisplay.notAvailable) := by
  constructor <;> intro h <;> simp [partite_metric, total_matches_value, h]

/-- Witness for C9: both the present-column and absent-column cases. -/
theorem c9_total_matches_witness :
    ("total_matches" ∈ (⟨["total_matches"], [[Cell.num 20], [Cell.num 20]]⟩ : Table).cols)
  ∧ partite_metric ⟨["total_matches"], [[Cell.num 20], [Cell.num 20]]⟩
      = MetricDisplay.count 40
  ∧ ("total_matches" ∉ (⟨["season"], ([] : List (List Cell))⟩ : Table).cols)
  ∧ partite_metric ⟨["season"], ([] : List (List Cell))⟩ = MetricDisplay.notAvailable := by
  have hsum : (numsOf (getColumn ⟨["total_matches"], [[Cell.num 20], [Cell.num 20]]⟩
      "total_matches")).sum = (40 : ℚ) := by
    have hn : numsOf (getColumn ⟨["total_matches"], [[Cell.num 20], [Cell.num 20]]⟩
        "total_matches") = [20, 20] := rfl
    rw [hn]
    norm_num
  have htr : truncQ (40 : ℚ) = 40 := by
    rw [truncQ]
    norm_num
  refine ⟨by decide, ?_, by decide, (c9_total_matches _).2 (by decide)⟩
  rw [(c9_total_matches _).1 (by decide), hsum, htr]

/-- The `st.cache_data` store backing `load_csv`: one serialized table per
already-loaded file. -/
structure Cache where
  entries : List (LeagueFile × Table)
deriving DecidableEq, Repr

/-- Cache lookup by resolved path. -/
def cache_lookup (c : Cache) (p : LeagueFile) : Option Table :=
  (c.entries.find? (fun e => e.1 = p)).map (fun e => e.2)

/-- `load_csv` as actually decorated with `@st.cache_data`: a hit hands the
caller a fresh deserialized copy of the stored value (value semantics), a
miss checks disk, parses, stores the result and returns it. -/
def load_csv_cached (parse : String → Table) (fs : LeagueFile → Option String)
    (c : Cache) (p : LeagueFile) : Except LoadError (Table × Cache) :=
  match cache_lookup c p with
  | some t => Except.ok (t, c)
  | none =>
    match fs p with
    | none => Except.error LoadError.notFound
    | some raw => Except.ok (parse raw, ⟨c.entries ++ [(p, parse raw)]⟩)

/-- The merge loop of dashboard_app.py:143-153 with the cache threaded
through: warnings, tagged tables, and the final cache state. -/
def collect_tables_cached (parse : String → Table) (fs : LeagueFile → Option String)
    (leagues : String → LeaguePath) (analysisFile : String) :
    List String → Cache → List String × List Table × Cache
  | [], c => ([], [], c)
  | league :: rest, c =>
    match load_csv_cached parse fs c ⟨leagues league, analysisFile⟩ with
    | Except.error _ =>
      let r := collect_tables_cached parse fs leagues analysisFile rest c
      (league :: r.1, r.2.1, r.2.2)
    | Except.ok (df, c1) =>
      let r := collect_tables_cached parse fs leagues analysisFile rest c1
      (r.1, tag_league df league :: r.2.1, r.2.2)

/-- Every cached table is exactly the parse of the file still on disk — in
particular, never a mutated (league-tagged) version. -/
def cache_consistent (parse : String → Table) (fs : LeagueFile → Option String)
    (c : Cache) : Prop :=
  ∀ e ∈ c.entries, (fs e.1).map parse = some e.2

/-- A successful cached load preserves cache consistency and returns the
parse of the on-disk file. -/
theorem load_csv_cached_ok (parse : String → Table) (fs : LeagueFile → Option String)
    (c : Cache) (p : LeagueFile) (df : Table) (c' : Cache)
    (hc : cache_consistent parse fs c)
    (h : load_csv_cached parse fs c p = Except.ok (df, c')) :
    cache_consistent parse fs c' ∧ (fs p).map parse = some df := by
  rw [load_csv_cached] at h
  cases hl : cache_lookup c p with
  | some t =>
    rw [hl] at h
    simp only [Except.ok.injEq, Prod.mk.injEq] at h
    obtain ⟨h1, h2⟩ := h
    subst h1
    subst h2
    refine ⟨hc, ?_⟩
    rw [cache_lookup] at hl
    cases hf : c.entries.find? (fun e => e.1 = p) with
    | none =>
      rw [hf] at hl
      simp at hl
    | some e =>
      rw [hf] at hl
      have he2 : e.2 = t := by simpa using hl
      have hep : e.1 = p := by
        have := List.find?_some hf
        simpa using this
      have hmem := List.mem_of_find?_eq_some hf
      have hcons := hc e hmem
      rw [hep, he2] at hcons
      exact hcons
  | none =>
    rw [hl] at h
    cases hfs : fs p with
    | none =>
      rw [hfs] at h
      exact absurd h (by simp)
    | some raw =>
      rw [hfs] at h
      simp only [Except.ok.injEq, Prod.mk.injEq] at h
      obtain ⟨h1, h2⟩ := h
      subst h1
      subst h2
      refine ⟨?_, rfl⟩
      intro e he
      rcases List.mem_append.1 he with hmem | hmem
      · exact hc e hmem
      · have he' : e = (p, parse raw) := by simpa using hmem
        subst he'
        simp [hfs]

/-- Running the merge loop with the cache threaded through preserves cache
consistency and produces exactly the warnings and tagged tables of the pure
loop: tagging happens on the caller's copy, never on the stored table. -/
theorem collect_tables_cached_spec (parse : String → Table)
    (fs : LeagueFile → Option String) (leagues : String → LeaguePath)
    (file : String) :
    ∀ (selected : List String) (c : Cache), cache_consistent parse fs c →
      cache_consistent parse fs
        (collect_tables_cached parse fs leagues file selected c).2.2
      ∧ ((collect_tables_cached parse fs leagues file selected c).1,
         (collect_tables_cached parse fs leagues file selected c).2.1)
          = collect_tables parse fs leagues file selected := by
  intro selected
  induction selected with
  | nil => intro c hc; exact ⟨hc, rfl⟩
  | cons l rest ih =>
    intro c hc
    cases hload : load_csv_cached parse fs c ⟨leagues l, file⟩ with
    | error err =>
      have hfs : fs ⟨leagues l, file⟩ = none := by
        rw [load_csv_cached] at hload
        cases hl : cache_lookup c ⟨leagues l, file⟩ with
        | some t =>
          rw [hl] at hload
          exact absurd hload (by simp)
        | none =>
          rw [hl] at hload
          cases hfs2 : fs ⟨leagues l, file⟩ with
          | none => rfl
          | some raw =>
            rw [hfs2] at hload
            exact absurd hload (by simp)
      have hrec := ih c hc
      have h1 := congrArg Prod.fst hrec.2
      have h2 := congrArg Prod.snd hrec.2
      simp only at h1 h2
      constructor
      · simp only [collect_tables_cached, hload]
        exact hrec.1
      · simp only [collect_tables_cached, hload, collect_tables, load_csv, hfs]
        simp [h1, h2]
    | ok res =>
      obtain ⟨df, c1⟩ := res
      have hok := load_csv_cached_ok parse fs c ⟨leagues l, file⟩ df c1 hc hload
      obtain ⟨raw, hfs, hparse⟩ :
          ∃ raw, fs ⟨leagues l, file⟩ = some raw ∧ parse raw = df := by
        cases hfs2 : fs ⟨leagues l, file⟩ with
        | none =>
          have hv := hok.2
          rw [hfs2] at hv
          simp at hv
        | some raw =>
          have hv := hok.2
          rw [hfs2] at hv
          simp at hv
          exact ⟨raw, rfl, hv⟩
      have hrec := ih c1 hok.1
      have h1 := congrArg Prod.fst hrec.2
      have h2 := congrArg Prod.snd hrec.2
      simp only at h1 h2
      constructor
      · simp only [collect_tables_cached, hload]
        exact hrec.1
      · simp only [collect_tables_cached, hload, collect_tables, load_csv, hfs]
        simp [h1, h2, hparse]

/-- C8: starting from a consistent cache, after the whole merge loop every
cached table is still exactly the parse of the file on disk (tagging never
reaches the shared store), any later cache hit returns the untagged disk
table, and the loop's warnings and tagged outputs coincide with the pure
(copy-semantics) loop of C2. -/
theorem c8_cache_immutable (parse : String → Table) (fs : LeagueFile → Option String)
    (leagues : String → LeaguePath) (file : String) (selected : List String)
    (c : Cache) (hc : cache_consistent parse fs c) :
    cache_consistent parse fs
      (collect_tables_cached parse fs leagues file selected c).2.2
  ∧ (∀ p t', cache_lookup
        (collect_tables_cached parse fs leagues file selected c).2.2 p = some t' →
        (fs p).map parse = some t')
  ∧ ((collect_tables_cached parse fs leagues file selected c).1,
     (collect_tables_cached parse fs leagues file selected c).2.1)
      = collect_tables parse fs leagues file selected := by
  have h := collect_tables_cached_spec parse fs leagues file selected c hc
  refine ⟨h.1, ?_, h.2⟩
  intro p t' hl
  rw [cache_lookup] at hl
  cases hf : (collect_tables_cached parse fs leagues file selected c).2.2.entries.find?
      (fun e => e.1 = p) with
  | none =>
    rw [hf] at hl
    simp at hl
  | some e =>
    rw [hf] at hl
    have he2 : e.2 = t' := by simpa using hl
    have hep : e.1 = p := by
      have := List.find?_some hf
      simpa using this
    have hmem := List.mem_of_find?_eq_some hf
    have hcons := h.1 e hmem
    rw [hep, he2] at hcons
    exact hcons

/-- Fixture: the one-row season table of league `A`. -/
def wTable : Table := ⟨["season"], [[Cell.num 2023]]⟩

/-- Fixture parser: only `A`'s file content parses to `wTable`. -/
def wParse : String → Table := fun raw => if raw = "A-csv" then wTable else ⟨[], []⟩

/-- Fixture disk: only league `A` has a season analysis file. -/
def wFs : LeagueFile → Option String :=
  fun p => if p = ⟨LeaguePath.sub "A", "analisi_stagioni.csv"⟩ then some "A-csv" else none

/-- Fixture league mapping. -/
def wLeagues : String → LeaguePath := fun n => LeaguePath.sub n

/-- Witness for C2: with `A` present and `B` missing, the loop warns once
(for `B`), keeps `A`'s rows tagged `league="A"`, and the merge does not
fail. -/
theorem c2_selection_merger_witness :
    (collect_tables wParse wFs wLeagues "analisi_stagioni.csv" ["A", "B"]).1 = ["B"]
  ∧ (collect_tables wParse wFs wLeagues "analisi_stagioni.csv" ["A", "B"]).2
      = [⟨["season", "league"], [[Cell.num 2023, Cell.str "A"]]⟩]
  ∧ merge_selected wParse wFs wLeagues "analisi_stagioni.csv" ["A", "B"]
      ≠ Except.error MergeError.noData := by
  have h := c2_selection_merger wParse wFs wLeagues "analisi_stagioni.csv" ["A", "B"]
  refine ⟨(h.2.1).trans (by decide), (h.2.2.1).trans (by decide), ?_⟩
  intro hcontra
  have hall := (h.2.2.2.2).1 hcontra "A" (by decide)
  exact absurd hall (by decide)

/-- Witness for C8 starting from the empty cache. -/
theorem c8_cache_immutable_witness :
    cache_consistent wParse wFs ⟨[]⟩
  ∧ cache_consistent wParse wFs
      (collect_tables_cached wParse wFs wLeagues "analisi_stagioni.csv"
        ["A", "B"] ⟨[]⟩).2.2
  ∧ (∀ p t', cache_lookup (collect_tables_cached wParse wFs wLeagues
        "analisi_stagioni.csv" ["A", "B"] ⟨[]⟩).2.2 p = some t' →
        (wFs p).map wParse = some t') := by
  have hc : cache_consistent wParse wFs ⟨[]⟩ := by
    intro e he
    exact absurd he (List.not_mem_nil e)
  have h := c8_cache_immutable wParse wFs wLeagues "analisi_stagioni.csv"
    ["A", "B"] ⟨[]⟩ hc
  exact ⟨hc, h.1, h.2.1⟩

end Dashboard
